import Mathlib

/-!
Shallow embedding of the orchestration core of the Agent repository
(`agent.py`, `orchestrator.py`, `agent_toolkit/events.py`) together with
proofs of the behavioural properties stated in the specification.

Machine floats from the source (costs, timestamps) are modelled as `ℚ`;
Python strings as `String`; mutation as explicit state passing.
-/

namespace AgentRepo

/-- The `EventType` enum of `events.py`. -/
inductive EventType
  | systemStart
  | systemShutdown
  | configLoaded
  | configValidated
  | agentStart
  | agentTaskStart
  | agentTaskCompleted
  | agentTaskFailed
  | agentCompleted
  | agentFailed
  | resourceLimitWarning
  | resourceLimitExceeded
  | agentMessage
deriving DecidableEq, Repr

/-- The `Event` model of `events.py`; payload fields not inspected by the
bus logic are omitted. -/
structure BusEvent where
  type : EventType
  agentId : Option String := none
  runId : String := ""
deriving DecidableEq, Repr

/-- State of `EventBus`: the bounded history plus the FIFO delivery queue.
`maxHistory` embeds `_MAX_HISTORY` (10 000 in the source). -/
structure EventBusState where
  history : List BusEvent := []
  queue : List BusEvent := []
  maxHistory : Nat := 10000
deriving DecidableEq, Repr

/-- `EventBus.publish`: append the event to the history, evict the oldest
entry (`pop(0)`) when the capacity is exceeded, then enqueue the event on
the delivery queue. -/
def publish (bus : EventBusState) (e : BusEvent) : EventBusState :=
  let h := bus.history ++ [e]
  { bus with
    history := if bus.maxHistory < h.length then h.tail else h
    queue := bus.queue ++ [e] }

/-- A sequence of `publish` calls, oldest first. -/
def publishAll (bus : EventBusState) (evs : List BusEvent) : EventBusState :=
  evs.foldl publish bus

/-- Possible fates of the `process_events` delivery loop on a finite queue:
either the loop hit the `break` (`exited`), or it consumed the whole queue
and is suspended in `await self.queue.get()` (`blocked`). -/
inductive LoopOutcome
  | exited
  | blocked
deriving DecidableEq, Repr

/-- `EventBus.process_events` on a queue holding the listed events (handler
publications included): each dequeued event is delivered to its
subscribers; after delivering a `SYSTEM_SHUTDOWN` event the loop breaks
only if the queue is empty at that point.  Returns the events delivered,
in order, and the loop's fate. -/
def processEvents : List BusEvent → List BusEvent × LoopOutcome
  | [] => ([], LoopOutcome.blocked)
  | e :: rest =>
    if e.type = EventType.systemShutdown ∧ rest = [] then
      ([e], LoopOutcome.exited)
    else
      let p := processEvents rest
      (e :: p.1, p.2)

lemma publish_history_length_le (bus : EventBusState) (e : BusEvent)
    (h : bus.history.length ≤ bus.maxHistory) :
    (publish bus e).history.length ≤ bus.maxHistory := by
  unfold publish
  simp only
  split
  · simp only [List.length_tail, List.length_append, List.length_singleton]
    omega
  · rename_i hlt
    simp only [List.length_append, List.length_singleton] at *
    omega

lemma publish_maxHistory (bus : EventBusState) (e : BusEvent) :
    (publish bus e).maxHistory = bus.maxHistory := rfl

lemma publishAll_history_eq (evs : List BusEvent) :
    ∀ bus : EventBusState, bus.history.length ≤ bus.maxHistory →
      (publishAll bus evs).history =
        (bus.history ++ evs).drop (bus.history.length + evs.length - bus.maxHistory) := by
  induction evs with
  | nil =>
    intro bus h
    simp only [publishAll, List.foldl_nil, List.length_nil, Nat.add_zero, List.append_nil]
    rw [Nat.sub_eq_zero_of_le h, List.drop_zero]
  | cons e rest ih =>
    intro bus h
    have hstep : publishAll bus (e :: rest) = publishAll (publish bus e) rest := rfl
    rw [hstep, ih (publish bus e) (publish_history_length_le bus e h)]
    rw [publish_maxHistory]
    unfold publish
    simp only
    split
    · rename_i hover
      -- history is full: bus.history.length = bus.maxHistory
      simp only [List.length_append, List.length_singleton] at hover
      have hfull : bus.history.length = bus.maxHistory := by omega
      simp only [List.length_tail, List.length_append, List.length_singleton]
      have h1 : (bus.history ++ [e]).tail = (bus.history ++ [e]).drop 1 := by
        rw [List.drop_one]
      rw [h1]
      have hlen1 : (1 : Nat) ≤ (bus.history ++ [e]).length := by
        simp [List.length_append]
      rw [← List.drop_append_of_le_length hlen1, List.drop_drop]
      have harr : bus.history ++ [e] ++ rest = bus.history ++ e :: rest := by
        simp
      rw [harr]
      congr 1
      simp only [List.length_cons]
      omega
    · rename_i hnot
      simp only [List.length_append, List.length_singleton] at hnot ⊢
      have harr : bus.history ++ [e] ++ rest = bus.history ++ e :: rest := by
        simp
      rw [harr]
      congr 1
      simp only [List.length_cons]
      omega

/-- C5.  The `EventBus` history never exceeds its configured cap after any
sequence of `publish` calls, and publishing `cap + k` events into an empty
bus leaves exactly the last `cap` events in publish order, the oldest `k`
evicted first-in-first-out. -/
theorem history_cap_fifo :
    (∀ (bus : EventBusState) (evs : List BusEvent),
        bus.history.length ≤ bus.maxHistory →
        (publishAll bus evs).history.length ≤ bus.maxHistory) ∧
    (∀ (cap k : Nat) (evs : List BusEvent), evs.length = cap + k →
        (publishAll { history := [], maxHistory := cap } evs).history = evs.drop k ∧
        (publishAll { history := [], maxHistory := cap } evs).history.length = cap) := by
  constructor
  · intro bus evs h
    rw [publishAll_history_eq evs bus h]
    simp only [List.length_drop, List.length_append]
    omega
  · intro cap k evs hlen
    have h0 : ([] : List BusEvent).length ≤ cap := by simp
    have := publishAll_history_eq evs { history := [], maxHistory := cap } h0
    simp only [List.nil_append, List.length_nil, Nat.zero_add] at this
    rw [this, hlen]
    constructor
    · congr 1
      omega
    · simp only [List.length_drop, hlen]
      omega

def evA : BusEvent := { type := EventType.agentStart, runId := "r" }

def evB : BusEvent := { type := EventType.agentCompleted, runId := "r" }

def evC : BusEvent := { type := EventType.configLoaded, runId := "r" }

/-- Witness for C5: capacity 2, three events published into an empty bus
leave exactly the last two. -/
theorem history_cap_fifo_witness :
    (publishAll { history := [], maxHistory := 2 } [evA, evB, evC]).history = [evB, evC] ∧
    (publishAll { history := [evA], maxHistory := 3 } [evB]).history.length ≤ 3 := by
  constructor
  · have h := (history_cap_fifo.2 2 1 [evA, evB, evC] (by decide)).1
    simpa using h
  · exact history_cap_fifo.1 { history := [evA], maxHistory := 3 } [evB] (by decide)

def shutdownEv : BusEvent := { type := EventType.systemShutdown, runId := "r" }

def infoEv : BusEvent := { type := EventType.configLoaded, runId := "r" }

/-- Counterexample to C6 as stated: a queue holding the shutdown sentinel
followed by one more event.  The loop delivers both events (it keeps
draining), but after the drain it is `blocked` on the empty queue — it has
not terminated. -/
theorem process_events_blocks_after_drain :
    (processEvents [shutdownEv, infoEv]).1 = [shutdownEv, infoEv] ∧
    (processEvents [shutdownEv, infoEv]).2 = LoopOutcome.blocked ∧
    LoopOutcome.blocked ≠ LoopOutcome.exited := by
  refine ⟨?_, ?_, by decide⟩ <;> decide

/-- C6 (amended).  The delivery loop delivers every queued event, and after
delivering the shutdown sentinel it exits only if the queue is empty at
that point; consequently, the loop terminates precisely when the last
queued event is a shutdown sentinel, and otherwise ends up blocked waiting
for further events after the drain. -/
theorem process_events_drain_exit (q : List BusEvent) :
    (processEvents q).1 = q ∧
    ((processEvents q).2 = LoopOutcome.exited ↔
      ∃ e, q.getLast? = some e ∧ e.type = EventType.systemShutdown) := by
  induction q with
  | nil =>
    simp [processEvents]
  | cons e rest ih =>
    by_cases h : e.type = EventType.systemShutdown ∧ rest = []
    · obtain ⟨h1, h2⟩ := h
      subst h2
      simp [processEvents, h1]
    · have hp : processEvents (e :: rest) =
          (e :: (processEvents rest).1, (processEvents rest).2) := by
        simp only [processEvents, if_neg h]
      rw [hp]
      constructor
      · simp [ih.1]
      · cases rest with
        | nil =>
          have hne : ¬ e.type = EventType.systemShutdown := by
            intro hc
            exact h ⟨hc, rfl⟩
          simp [processEvents, hne]
        | cons f fs =>
          rw [ih.2]
          simp [List.getLast?_cons_cons]

/-- The `limit_type` payload value of the resource events published by
`ResourceTracker._check_limits`. -/
inductive LimitKind
  | cost
  | time
deriving DecidableEq, Repr

/-- A resource event as published by `ResourceTracker._check_limits`:
its `EventType` together with the `limit_type` payload field. -/
structure ResourceEvent where
  type : EventType
  kind : LimitKind
deriving DecidableEq, Repr

/-- State of `ResourceTracker` (`orchestrator.py`).  The source stores the
limits as floats (`float("inf")` when unconfigured); the claims concern
configured, finite limits, modelled as `ℚ`. -/
structure ResourceTracker where
  maxCostUsd : ℚ
  maxRuntimeMin : ℚ
  currentCostUsd : ℚ := 0
  promptTokens : Nat := 0
  completionTokens : Nat := 0
  totalTokens : Nat := 0
  costWarningSent : Bool := false
  timeWarningSent : Bool := false
deriving DecidableEq, Repr

/-- `self.cost_warning_threshold = self.max_cost_usd * 0.8`. -/
def costWarningThreshold (rt : ResourceTracker) : ℚ := rt.maxCostUsd * (8 / 10)

/-- `self.time_warning_threshold = self.max_runtime_min * 60 * 0.8`. -/
def timeWarningThreshold (rt : ResourceTracker) : ℚ := rt.maxRuntimeMin * 60 * (8 / 10)

/-- The cost section of `ResourceTracker._check_limits`: `if` cumulative
cost is at or past the limit publish EXCEEDED, `elif` it is at or past the
warning threshold and the one-shot flag is clear, set the flag and publish
WARNING. -/
def costCheck (rt : ResourceTracker) : List ResourceEvent × ResourceTracker :=
  if rt.currentCostUsd ≥ rt.maxCostUsd then
    ([⟨EventType.resourceLimitExceeded, LimitKind.cost⟩], rt)
  else if rt.currentCostUsd ≥ costWarningThreshold rt ∧ rt.costWarningSent = false then
    ([⟨EventType.resourceLimitWarning, LimitKind.cost⟩], { rt with costWarningSent := true })
  else
    ([], rt)

/-- The time section of `ResourceTracker._check_limits`, on the elapsed
seconds observed by the check. -/
def timeCheck (rt : ResourceTracker) (elapsedSeconds : ℚ) :
    List ResourceEvent × ResourceTracker :=
  if elapsedSeconds ≥ rt.maxRuntimeMin * 60 then
    ([⟨EventType.resourceLimitExceeded, LimitKind.time⟩], rt)
  else if elapsedSeconds ≥ timeWarningThreshold rt ∧ rt.timeWarningSent = false then
    ([⟨EventType.resourceLimitWarning, LimitKind.time⟩], { rt with timeWarningSent := true })
  else
    ([], rt)

/-- `ResourceTracker._check_limits`: the cost section followed by the time
section.  Returns the published events (in publish order) and the updated
tracker state. -/
def checkLimits (rt : ResourceTracker) (elapsedSeconds : ℚ) :
    List ResourceEvent × ResourceTracker :=
  let c := costCheck rt
  let t := timeCheck c.2 elapsedSeconds
  (c.1 ++ t.1, t.2)

/-- `ResourceTracker.add_token_usage`: accumulate token counters and cost. -/
def addTokenUsage (rt : ResourceTracker) (p c : Nat) (costUsd : ℚ) : ResourceTracker :=
  { rt with
    promptTokens := rt.promptTokens + p
    completionTokens := rt.completionTokens + c
    totalTokens := rt.totalTokens + (p + c)
    currentCostUsd := rt.currentCostUsd + costUsd }

/-- One `add_token_usage` call together with the `_check_limits` run it
schedules; `elapsedSeconds` is the wall-clock elapsed time observed by that
check. -/
structure UsageStep where
  promptTokens : Nat := 0
  completionTokens : Nat := 0
  costUsd : ℚ := 0
  elapsedSeconds : ℚ := 0
deriving DecidableEq, Repr

/-- A run of usage additions, each followed by its limit check.  Returns
all published resource events in order plus the final tracker state. -/
def runChecks (rt : ResourceTracker) : List UsageStep → List ResourceEvent × ResourceTracker
  | [] => ([], rt)
  | s :: rest =>
    let rt1 := addTokenUsage rt s.promptTokens s.completionTokens s.costUsd
    let p := checkLimits rt1 s.elapsedSeconds
    let q := runChecks p.2 rest
    (p.1 ++ q.1, q.2)

/-- The payload string `limit_type` carried by the resource events. -/
def limitTypeStr : LimitKind → String
  | LimitKind.cost => "cost"
  | LimitKind.time => "time"

/-- `Orchestrator._handle_resource_exceeded`: logs, then invokes
`shutdown(f"Resource limit exceeded: {limit_type}")`.  Returns the shutdown
reason it passes. -/
def handleResourceExceeded (e : ResourceEvent) : String :=
  "Resource limit exceeded: " ++ limitTypeStr e.kind

def warnCost : ResourceEvent := ⟨EventType.resourceLimitWarning, LimitKind.cost⟩

def warnTime : ResourceEvent := ⟨EventType.resourceLimitWarning, LimitKind.time⟩

lemma costCheck_warnCost_count (rt : ResourceTracker) :
    ((costCheck rt).1.count warnCost) + (cond rt.costWarningSent 1 0) =
      cond (costCheck rt).2.costWarningSent 1 0 := by
  unfold costCheck
  split_ifs with h1 h2 <;> simp_all [warnCost, List.count_cons]

lemma costCheck_timeFlag (rt : ResourceTracker) :
    (costCheck rt).2.timeWarningSent = rt.timeWarningSent := by
  unfold costCheck
  split_ifs <;> rfl

lemma costCheck_timeFields (rt : ResourceTracker) :
    (costCheck rt).2.maxRuntimeMin = rt.maxRuntimeMin := by
  unfold costCheck
  split_ifs <;> rfl

lemma costCheck_warnTime_zero (rt : ResourceTracker) :
    (costCheck rt).1.count warnTime = 0 := by
  unfold costCheck
  split_ifs <;> simp [warnTime, List.count_cons]

lemma timeCheck_costFlag (rt : ResourceTracker) (e : ℚ) :
    (timeCheck rt e).2.costWarningSent = rt.costWarningSent := by
  unfold timeCheck
  split_ifs <;> rfl

lemma timeCheck_warnCost_zero (rt : ResourceTracker) (e : ℚ) :
    (timeCheck rt e).1.count warnCost = 0 := by
  unfold timeCheck
  split_ifs <;> simp [warnCost, List.count_cons]

lemma timeCheck_warnTime_count (rt : ResourceTracker) (e : ℚ) :
    ((timeCheck rt e).1.count warnTime) + (cond rt.timeWarningSent 1 0) =
      cond (timeCheck rt e).2.timeWarningSent 1 0 := by
  unfold timeCheck
  split_ifs with h1 h2 <;> simp_all [warnTime, List.count_cons]

lemma checkLimits_warnCost_count (rt : ResourceTracker) (e : ℚ) :
    ((checkLimits rt e).1.count warnCost) + (cond rt.costWarningSent 1 0) =
      cond (checkLimits rt e).2.costWarningSent 1 0 := by
  unfold checkLimits
  simp only [List.count_append, timeCheck_warnCost_zero, timeCheck_costFlag]
  have := costCheck_warnCost_count rt
  omega

lemma checkLimits_warnTime_count (rt : ResourceTracker) (e : ℚ) :
    ((checkLimits rt e).1.count warnTime) + (cond rt.timeWarningSent 1 0) =
      cond (checkLimits rt e).2.timeWarningSent 1 0 := by
  unfold checkLimits
  simp only [List.count_append, costCheck_warnTime_zero]
  have := timeCheck_warnTime_count (costCheck rt).2 e
  rw [costCheck_timeFlag] at this
  omega

lemma checkLimits_snd (rt : ResourceTracker) (e : ℚ) :
    (checkLimits rt e).2 = (timeCheck (costCheck rt).2 e).2 := rfl

lemma costCheck_costFlag_mono (rt : ResourceTracker)
    (h : rt.costWarningSent = true) : (costCheck rt).2.costWarningSent = true := by
  unfold costCheck
  split_ifs <;> simp_all

lemma timeCheck_timeFlag_mono (rt : ResourceTracker) (e : ℚ)
    (h : rt.timeWarningSent = true) : (timeCheck rt e).2.timeWarningSent = true := by
  unfold timeCheck
  split_ifs <;> simp_all

lemma checkLimits_costFlag_mono (rt : ResourceTracker) (e : ℚ)
    (h : rt.costWarningSent = true) : (checkLimits rt e).2.costWarningSent = true := by
  rw [checkLimits_snd, timeCheck_costFlag]
  exact costCheck_costFlag_mono rt h

lemma checkLimits_timeFlag_mono (rt : ResourceTracker) (e : ℚ)
    (h : rt.timeWarningSent = true) : (checkLimits rt e).2.timeWarningSent = true := by
  rw [checkLimits_snd]
  refine timeCheck_timeFlag_mono _ _ ?_
  rw [costCheck_timeFlag]
  exact h

lemma runChecks_warnCost_count (steps : List UsageStep) :
    ∀ rt : ResourceTracker,
      ((runChecks rt steps).1.count warnCost) + (cond rt.costWarningSent 1 0) =
        cond (runChecks rt steps).2.costWarningSent 1 0 := by
  induction steps with
  | nil => intro rt; simp [runChecks]
  | cons s rest ih =>
    intro rt
    simp only [runChecks, List.count_append]
    have h1 := checkLimits_warnCost_count
      (addTokenUsage rt s.promptTokens s.completionTokens s.costUsd) s.elapsedSeconds
    have h2 := ih (checkLimits
      (addTokenUsage rt s.promptTokens s.completionTokens s.costUsd) s.elapsedSeconds).2
    have hadd : (addTokenUsage rt s.promptTokens s.completionTokens s.costUsd).costWarningSent =
        rt.costWarningSent := rfl
    rw [hadd] at h1
    omega

lemma runChecks_warnTime_count (steps : List UsageStep) :
    ∀ rt : ResourceTracker,
      ((runChecks rt steps).1.count warnTime) + (cond rt.timeWarningSent 1 0) =
        cond (runChecks rt steps).2.timeWarningSent 1 0 := by
  induction steps with
  | nil => intro rt; simp [runChecks]
  | cons s rest ih =>
    intro rt
    simp only [runChecks, List.count_append]
    have h1 := checkLimits_warnTime_count
      (addTokenUsage rt s.promptTokens s.completionTokens s.costUsd) s.elapsedSeconds
    have h2 := ih (checkLimits
      (addTokenUsage rt s.promptTokens s.completionTokens s.costUsd) s.elapsedSeconds).2
    have hadd : (addTokenUsage rt s.promptTokens s.completionTokens s.costUsd).timeWarningSent =
        rt.timeWarningSent := rfl
    rw [hadd] at h1
    omega

lemma runChecks_costFlag_mono (steps : List UsageStep) :
    ∀ rt : ResourceTracker, rt.costWarningSent = true →
      (runChecks rt steps).2.costWarningSent = true := by
  induction steps with
  | nil => intro rt h; simpa [runChecks] using h
  | cons s rest ih =>
    intro rt h
    simp only [runChecks]
    exact ih _ (checkLimits_costFlag_mono _ _ h)

lemma runChecks_timeFlag_mono (steps : List UsageStep) :
    ∀ rt : ResourceTracker, rt.timeWarningSent = true →
      (runChecks rt steps).2.timeWarningSent = true := by
  induction steps with
  | nil => intro rt h; simpa [runChecks] using h
  | cons s rest ih =>
    intro rt h
    simp only [runChecks]
    exact ih _ (checkLimits_timeFlag_mono _ _ h)

lemma costCheck_sets_costFlag (rt : ResourceTracker)
    (h1 : rt.currentCostUsd < rt.maxCostUsd)
    (h2 : rt.currentCostUsd ≥ costWarningThreshold rt) :
    (costCheck rt).2.costWarningSent = true := by
  unfold costCheck
  split_ifs with hx hy
  · exact absurd hx (not_le.mpr h1)
  · rfl
  · cases hflag : rt.costWarningSent with
    | true => rfl
    | false => exact absurd ⟨h2, hflag⟩ hy

lemma checkLimits_sets_costFlag (rt : ResourceTracker) (e : ℚ)
    (h1 : rt.currentCostUsd < rt.maxCostUsd)
    (h2 : rt.currentCostUsd ≥ costWarningThreshold rt) :
    (checkLimits rt e).2.costWarningSent = true := by
  rw [checkLimits_snd, timeCheck_costFlag]
  exact costCheck_sets_costFlag rt h1 h2

lemma timeWarningThreshold_costCheck (rt : ResourceTracker) :
    timeWarningThreshold (costCheck rt).2 = timeWarningThreshold rt := by
  unfold timeWarningThreshold
  rw [costCheck_timeFields]

lemma timeCheck_sets_timeFlag (rt : ResourceTracker) (e : ℚ)
    (h1 : e < rt.maxRuntimeMin * 60)
    (h2 : e ≥ timeWarningThreshold rt) :
    (timeCheck rt e).2.timeWarningSent = true := by
  unfold timeCheck
  split_ifs with hx hy
  · exact absurd hx (not_le.mpr h1)
  · rfl
  · cases hflag : rt.timeWarningSent with
    | true => rfl
    | false => exact absurd ⟨h2, hflag⟩ hy

lemma checkLimits_sets_timeFlag (rt : ResourceTracker) (e : ℚ)
    (h1 : e < rt.maxRuntimeMin * 60)
    (h2 : e ≥ timeWarningThreshold rt) :
    (checkLimits rt e).2.timeWarningSent = true := by
  rw [checkLimits_snd]
  refine timeCheck_sets_timeFlag _ _ ?_ ?_
  · rw [costCheck_timeFields]
    exact h1
  · rw [timeWarningThreshold_costCheck]
    exact h2

lemma runChecks_append (a b : List UsageStep) :
    ∀ rt : ResourceTracker,
      runChecks rt (a ++ b) =
        ((runChecks rt a).1 ++ (runChecks (runChecks rt a).2 b).1,
         (runChecks (runChecks rt a).2 b).2) := by
  induction a with
  | nil => intro rt; simp [runChecks]
  | cons s rest ih =>
    intro rt
    simp only [List.cons_append, runChecks, List.append_eq]
    rw [ih]
    simp [List.append_assoc]

/-- Counterexample to C7 as stated: with a cost limit of 10 (warning
threshold 8), a single usage addition jumping the cumulative cost from 0
— below the threshold — to 10 crosses 80 % of the limit, yet the run
publishes zero cost `RESOURCE_LIMIT_WARNING` events (only the EXCEEDED
event), because the warning branch is an `elif` of the exceeded branch. -/
theorem warning_skipped_when_jumping_limit :
    (0 : ℚ) < costWarningThreshold { maxCostUsd := 10, maxRuntimeMin := 100 } ∧
    (addTokenUsage { maxCostUsd := 10, maxRuntimeMin := 100 } 0 0 10).currentCostUsd ≥
      costWarningThreshold { maxCostUsd := 10, maxRuntimeMin := 100 } ∧
    (runChecks { maxCostUsd := 10, maxRuntimeMin := 100 }
        [{ costUsd := 10 }]).1.count warnCost = 0 := by
  refine ⟨by norm_num [costWarningThreshold], by norm_num [costWarningThreshold, addTokenUsage], ?_⟩
  norm_num [runChecks, checkLimits, costCheck, timeCheck, addTokenUsage,
    costWarningThreshold, timeWarningThreshold]
  decide

/-- C7 (amended).  For each resource kind separately, a run starting with
the one-shot warning flags clear publishes at most one WARNING event for
that kind, however usage evolves afterward; and it publishes exactly one
whenever some check observes usage at or above 80 % of that kind's limit
while still below the limit.  (When usage jumps from below the threshold
straight past the limit between checks, no WARNING is published at all.) -/
theorem warning_at_most_once (rt : ResourceTracker) (steps : List UsageStep)
    (hc : rt.costWarningSent = false) (ht : rt.timeWarningSent = false) :
    (runChecks rt steps).1.count warnCost ≤ 1 ∧
    (runChecks rt steps).1.count warnTime ≤ 1 ∧
    (∀ pre s post, steps = pre ++ s :: post →
      (addTokenUsage (runChecks rt pre).2 s.promptTokens s.completionTokens
          s.costUsd).currentCostUsd <
        (addTokenUsage (runChecks rt pre).2 s.promptTokens s.completionTokens
          s.costUsd).maxCostUsd →
      (addTokenUsage (runChecks rt pre).2 s.promptTokens s.completionTokens
          s.costUsd).currentCostUsd ≥
        costWarningThreshold (addTokenUsage (runChecks rt pre).2 s.promptTokens
          s.completionTokens s.costUsd) →
      (runChecks rt steps).1.count warnCost = 1) ∧
    (∀ pre s post, steps = pre ++ s :: post →
      s.elapsedSeconds < (runChecks rt pre).2.maxRuntimeMin * 60 →
      s.elapsedSeconds ≥ timeWarningThreshold (runChecks rt pre).2 →
      (runChecks rt steps).1.count warnTime = 1) := by
  have hcount := runChecks_warnCost_count steps rt
  have htcount := runChecks_warnTime_count steps rt
  rw [hc] at hcount
  rw [ht] at htcount
  refine ⟨?_, ?_, ?_, ?_⟩
  · cases hfin : (runChecks rt steps).2.costWarningSent with
    | false => rw [hfin] at hcount; simp at hcount; omega
    | true => rw [hfin] at hcount; simp at hcount; omega
  · cases hfin : (runChecks rt steps).2.timeWarningSent with
    | false => rw [hfin] at htcount; simp at htcount; omega
    | true => rw [hfin] at htcount; simp at htcount; omega
  · intro pre s post hsplit h1 h2
    set rtm := addTokenUsage (runChecks rt pre).2 s.promptTokens s.completionTokens s.costUsd
      with hrtm
    have hset : (checkLimits rtm s.elapsedSeconds).2.costWarningSent = true :=
      checkLimits_sets_costFlag rtm s.elapsedSeconds h1 h2
    have hfin : (runChecks rt steps).2.costWarningSent = true := by
      rw [hsplit, runChecks_append]
      simp only [runChecks]
      exact runChecks_costFlag_mono post _ hset
    rw [hfin] at hcount
    simp at hcount
    omega
  · intro pre s post hsplit h1 h2
    set rtm := addTokenUsage (runChecks rt pre).2 s.promptTokens s.completionTokens s.costUsd
      with hrtm
    have hth : timeWarningThreshold rtm = timeWarningThreshold (runChecks rt pre).2 := rfl
    have hmx : rtm.maxRuntimeMin = (runChecks rt pre).2.maxRuntimeMin := rfl
    have hset : (checkLimits rtm s.elapsedSeconds).2.timeWarningSent = true := by
      apply checkLimits_sets_timeFlag
      · rw [hmx]; exact h1
      · rw [hth]; exact h2
    have hfin : (runChecks rt steps).2.timeWarningSent = true := by
      rw [hsplit, runChecks_append]
      simp only [runChecks]
      exact runChecks_timeFlag_mono post _ hset
    rw [hfin] at htcount
    simp at htcount
    omega

/-- Witness for C7 (amended): limit 10, a first check at cost 9 (in the
warning band) then a second at cost 14 (past the limit) publish exactly one
cost warning. -/
theorem warning_at_most_once_witness :
    (runChecks { maxCostUsd := 10, maxRuntimeMin := 100 }
        [{ costUsd := 9 }, { costUsd := 5 }]).1.count warnCost = 1 := by
  have h := (warning_at_most_once { maxCostUsd := 10, maxRuntimeMin := 100 }
      [{ costUsd := 9 }, { costUsd := 5 }] rfl rfl).2.2.1
      [] { costUsd := 9 } [{ costUsd := 5 }] rfl
      (by norm_num [runChecks, addTokenUsage])
      (by norm_num [runChecks, addTokenUsage, costWarningThreshold])
  exact h

/-- C8.  Every run of `_check_limits` while the cumulative cost (resp. the
elapsed time) is at or past its configured maximum publishes a
`RESOURCE_LIMIT_EXCEEDED` event for that kind — with no deduplication,
since the check is independent of the warning flags — and the
orchestrator's handler for such an event invokes `shutdown` with that
resource kind in the reason. -/
theorem exceeded_every_check_and_shutdown (rt : ResourceTracker) (elapsed : ℚ) :
    (rt.currentCostUsd ≥ rt.maxCostUsd →
      (⟨EventType.resourceLimitExceeded, LimitKind.cost⟩ : ResourceEvent) ∈
          (checkLimits rt elapsed).1 ∧
        handleResourceExceeded ⟨EventType.resourceLimitExceeded, LimitKind.cost⟩ =
          "Resource limit exceeded: cost") ∧
    (elapsed ≥ rt.maxRuntimeMin * 60 →
      (⟨EventType.resourceLimitExceeded, LimitKind.time⟩ : ResourceEvent) ∈
          (checkLimits rt elapsed).1 ∧
        handleResourceExceeded ⟨EventType.resourceLimitExceeded, LimitKind.time⟩ =
          "Resource limit exceeded: time") := by
  constructor
  · intro h
    refine ⟨?_, rfl⟩
    have hfst : (checkLimits rt elapsed).1 =
        (costCheck rt).1 ++ (timeCheck (costCheck rt).2 elapsed).1 := rfl
    rw [hfst]
    apply List.mem_append_left
    unfold costCheck
    rw [if_pos h]
    simp
  · intro h
    refine ⟨?_, rfl⟩
    have hfst : (checkLimits rt elapsed).1 =
        (costCheck rt).1 ++ (timeCheck (costCheck rt).2 elapsed).1 := rfl
    rw [hfst]
    apply List.mem_append_right
    have hmx := costCheck_timeFields rt
    unfold timeCheck
    rw [hmx, if_pos h]
    simp

/-- Witness for C8 at a concrete over-budget tracker. -/
theorem exceeded_every_check_and_shutdown_witness :
    (⟨EventType.resourceLimitExceeded, LimitKind.cost⟩ : ResourceEvent) ∈
        (checkLimits { maxCostUsd := 1, maxRuntimeMin := 1, currentCostUsd := 2 } 90).1 ∧
    (⟨EventType.resourceLimitExceeded, LimitKind.time⟩ : ResourceEvent) ∈
        (checkLimits { maxCostUsd := 1, maxRuntimeMin := 1, currentCostUsd := 2 } 90).1 := by
  refine ⟨((exceeded_every_check_and_shutdown
      { maxCostUsd := 1, maxRuntimeMin := 1, currentCostUsd := 2 } 90).1 (by norm_num)).1,
    ((exceeded_every_check_and_shutdown
      { maxCostUsd := 1, maxRuntimeMin := 1, currentCostUsd := 2 } 90).2 (by norm_num)).1⟩

/-- Events published by the orchestrator during `run()`/`shutdown()`. -/
inductive OrchEvent
  | systemStart
  | configValidated (status : String) (errors : List String)
  | systemShutdown (reason : String)
deriving DecidableEq, Repr

/-- Outcome of `Orchestrator.run`: the events it published, how many agents
it created and started, and its return value. -/
structure RunResult where
  events : List OrchEvent
  agentsCreated : Nat
  agentsStarted : Nat
  success : Bool
deriving DecidableEq, Repr

/-- `Orchestrator.validate_config`: publish a `CONFIG_VALIDATED` event with
`status` `"valid"`, or `"invalid"` together with the validator's error
list. -/
def validateConfigEvents (isValid : Bool) (errors : List String) : List OrchEvent :=
  if isValid then [OrchEvent.configValidated "valid" []]
  else [OrchEvent.configValidated "invalid" errors]

/-- `Orchestrator.shutdown(reason)`: after the drain stages it publishes
the terminal `SYSTEM_SHUTDOWN` event carrying the reason. -/
def shutdownEvents (reason : String) : List OrchEvent :=
  [OrchEvent.systemShutdown reason]

/-- `Orchestrator.run`, abstracted over the external validator's verdict
(`isValid`, `errors`), the number of agents the factory would create, and
whether the concurrently awaited agents all complete without raising. -/
def orchestratorRun (isValid : Bool) (errors : List String) (agentCount : Nat)
    (agentsSucceed : Bool) : RunResult :=
  if isValid then
    if agentsSucceed then
      { events := [OrchEvent.systemStart] ++ validateConfigEvents true errors ++
          shutdownEvents "Run completed successfully"
        agentsCreated := agentCount
        agentsStarted := agentCount
        success := true }
    else
      { events := [OrchEvent.systemStart] ++ validateConfigEvents true errors ++
          shutdownEvents "Agent execution failed"
        agentsCreated := agentCount
        agentsStarted := agentCount
        success := false }
  else
    { events := [OrchEvent.systemStart] ++ validateConfigEvents false errors ++
        shutdownEvents "Configuration validation failed"
      agentsCreated := 0
      agentsStarted := 0
      success := false }

/-- C9.  On a configuration that fails validation, `Orchestrator.run`
publishes the `CONFIG_VALIDATED` event with invalid status and the error
list, returns `False`, and neither creates nor starts any agent. -/
theorem invalid_config_aborts_run (errors : List String) (n : Nat) (s : Bool) :
    (orchestratorRun false errors n s).success = false ∧
    (orchestratorRun false errors n s).agentsCreated = 0 ∧
    (orchestratorRun false errors n s).agentsStarted = 0 ∧
    OrchEvent.configValidated "invalid" errors ∈ (orchestratorRun false errors n s).events := by
  refine ⟨rfl, rfl, rfl, ?_⟩
  simp [orchestratorRun, validateConfigEvents, shutdownEvents]

/-- The `TaskStatus` enum of `agent.py`. -/
inductive TaskStatus
  | pending
  | inProgress
  | completed
  | failed
  | blocked
  | skipped
deriving DecidableEq, Repr

/-- A `Task` of `agent.py`; wall-clock timestamps are `ℚ`, the fields not
read by the scheduler (`result`, `error`, `created_at`, ...) are omitted. -/
structure Task where
  id : String
  description : String := ""
  dependencies : List String := []
  status : TaskStatus := TaskStatus.pending
  dependencyWaitStart : Option ℚ := none
deriving DecidableEq, Repr

/-- The id tag `f"{self.agent_id}-"` used to classify dependencies. -/
def agentTag (agentId : String) : String := agentId ++ "-"

/-- Python `s.startswith(tag)`. -/
def strStarts (tag s : String) : Bool := tag.data.isPrefixOf s.data

/-- `dep_id.startswith(f"{self.agent_id}-")`: the dependency belongs to
this same agent. -/
def isLocalDep (agentId dep : String) : Bool := strStarts (agentTag agentId) dep

/-- `next((t for t in self.tasks if t.id == dep_id), None)`. -/
def findTask (tasks : List Task) (depId : String) : Option Task :=
  tasks.find? fun t => t.id == depId

/-- `dependencies_met` for the local dependencies of `t`: every dependency
of `t` carrying this agent's tag resolves to a task of `allTasks` whose
status is COMPLETED. -/
def localDepsMet (agentId : String) (allTasks : List Task) (t : Task) : Bool :=
  t.dependencies.all fun d =>
    !isLocalDep agentId d ||
      match findTask allTasks d with
      | some dt => dt.status == TaskStatus.completed
      | none => false

/-- The `external_dependencies` collected for `t`: its dependencies not
carrying this agent's tag. -/
def externalDeps (agentId : String) (t : Task) : List String :=
  t.dependencies.filter fun d => !isLocalDep agentId d

/-- The mutation performed when the external-dependency timeout fires:
keep only the local dependencies and leave the wait timer set. -/
def externalTimeoutUpdate (agentId : String) (now : ℚ) (t : Task) : Task :=
  { t with
    dependencies := t.dependencies.filter fun d => isLocalDep agentId d
    dependencyWaitStart := some (t.dependencyWaitStart.getD now) }

/-- The main `for task in self.tasks` scan of `_get_next_executable_task`:
skip non-PENDING tasks; a PENDING task with its local dependencies met is
returned at once when it has no external dependencies, and through the
wait-timer branch - starting the timer on first sight, returning the task
with its external dependencies dropped once `now - start` reaches the
external-dependency timeout - otherwise.  Returns the index of the
returned task (if any), the task list with the scan's mutations applied,
and whether the external-dependency branch was entered. -/
def scanTasks (agentId : String) (extTimeout : ℚ) (allTasks : List Task) (now : ℚ) :
    List Task → Option Nat × List Task × Bool
  | [] => (none, [], false)
  | t :: rest =>
    if t.status = TaskStatus.pending then
      if localDepsMet agentId allTasks t then
        if (externalDeps agentId t).isEmpty then
          (some 0, t :: rest, false)
        else
          if now - t.dependencyWaitStart.getD now ≥ extTimeout then
            (some 0, externalTimeoutUpdate agentId now t :: rest, true)
          else
            let p := scanTasks agentId extTimeout allTasks now rest
            (p.1.map (· + 1),
             { t with dependencyWaitStart := some (t.dependencyWaitStart.getD now) } :: p.2.1,
             true)
      else
        let p := scanTasks agentId extTimeout allTasks now rest
        (p.1.map (· + 1), t :: p.2.1, p.2.2)
    else
      let p := scanTasks agentId extTimeout allTasks now rest
      (p.1.map (· + 1), t :: p.2.1, p.2.2)

/-- The deadlock fallback of `_get_next_executable_task`, reached when the
main scan returned nothing: walk the PENDING tasks, start the wait timer
where it is unset, and return the first task whose wait exceeds the global
deadlock threshold with all its dependencies cleared. -/
def deadlockScan (maxWait : ℚ) (now : ℚ) : List Task → Option Nat × List Task
  | [] => (none, [])
  | t :: rest =>
    if t.status = TaskStatus.pending then
      match t.dependencyWaitStart with
      | none =>
        let p := deadlockScan maxWait now rest
        (p.1.map (· + 1), { t with dependencyWaitStart := some now } :: p.2)
      | some w =>
        if now - w ≥ maxWait then
          (some 0, { t with dependencies := [] } :: rest)
        else
          let p := deadlockScan maxWait now rest
          (p.1.map (· + 1), t :: p.2)
    else
      let p := deadlockScan maxWait now rest
      (p.1.map (· + 1), t :: p.2)

/-- The scheduler-relevant state of an `Agent`, with the two timeout
attributes set in `__init__` (60 s and 30 s in the source). -/
structure AgentState where
  agentId : String
  tasks : List Task := []
  maxDependencyWaitTime : ℚ := 60
  externalDependencyTimeout : ℚ := 30
deriving DecidableEq, Repr

/-- `Agent._get_next_executable_task` at wall-clock time `now`: the main
scan followed, when it returned nothing, by the deadlock fallback.  The
returned `Option Nat` is the position of the returned task (the source
returns the aliased `Task` object itself); the list is `self.tasks` after
the call's mutations. -/
def getNextExecutableTask (ag : AgentState) (now : ℚ) : Option Nat × List Task :=
  if ag.tasks.isEmpty then (none, ag.tasks)
  else
    let p := scanTasks ag.agentId ag.externalDependencyTimeout ag.tasks now ag.tasks
    match p.1 with
    | some i => (some i, p.2.1)
    | none => deadlockScan ag.maxDependencyWaitTime now p.2.1

/-- Guard under which the main scan returns a task: PENDING, local
dependencies met, and either no external dependency or the external wait
timed out. -/
def mainScanReturns (agentId : String) (extTimeout : ℚ) (allTasks : List Task) (now : ℚ)
    (t : Task) : Bool :=
  t.status == TaskStatus.pending && localDepsMet agentId allTasks t &&
    ((externalDeps agentId t).isEmpty ||
      decide (now - t.dependencyWaitStart.getD now ≥ extTimeout))

/-- Guard under which the deadlock fallback returns a task: PENDING with a
set wait timer that has exceeded the global threshold. -/
def deadlockReturns (maxWait now : ℚ) (t : Task) : Bool :=
  t.status == TaskStatus.pending &&
    (match t.dependencyWaitStart with
     | some w => decide (now - w ≥ maxWait)
     | none => false)

/-- The per-task mutation applied by a main scan that returned nothing. -/
def scanSkipUpdate (agentId : String) (allTasks : List Task) (now : ℚ) (t : Task) : Task :=
  if t.status = TaskStatus.pending ∧ localDepsMet agentId allTasks t = true ∧
      (externalDeps agentId t).isEmpty = false then
    { t with dependencyWaitStart := some (t.dependencyWaitStart.getD now) }
  else t

/-- Index of the first list entry satisfying `p`. -/
def firstIdxSat (p : Task → Bool) : List Task → Option Nat
  | [] => none
  | t :: rest => if p t then some 0 else (firstIdxSat p rest).map (· + 1)

/-- The sequence of statuses `_execute_task` assigns to the task it runs:
IN_PROGRESS at entry, then COMPLETED on success or FAILED on failure or
exception. -/
def executeStatusWrites (success : Bool) : List TaskStatus :=
  [TaskStatus.inProgress, if success then TaskStatus.completed else TaskStatus.failed]

/-- The task as left by `_execute_task`. -/
def executeTask (t : Task) (success : Bool) : Task :=
  { t with status := if success then TaskStatus.completed else TaskStatus.failed }

/-- Position of a status along PENDING → IN_PROGRESS → {COMPLETED, FAILED}
(the two outcomes, and the terminal variants BLOCKED/SKIPPED, share the
final position). -/
def statusRank : TaskStatus → Nat
  | TaskStatus.pending => 0
  | TaskStatus.inProgress => 1
  | TaskStatus.completed => 2
  | TaskStatus.failed => 2
  | TaskStatus.blocked => 2
  | TaskStatus.skipped => 2

/-- Replace the `i`-th task (the source mutates the aliased object). -/
def updateAt : List Task → Nat → (Task → Task) → List Task
  | [], _, _ => []
  | t :: rest, 0, f => f t :: rest
  | t :: rest, Nat.succ k, f => t :: updateAt rest k f

/-- One iteration of the agent's main loop (`Agent._run`): select the next
executable task and, if one was returned, execute it. -/
def agentStep (ag : AgentState) (now : ℚ) (success : Bool) : AgentState :=
  let p := getNextExecutableTask ag now
  match p.1 with
  | none => { ag with tasks := p.2 }
  | some i => { ag with tasks := updateAt p.2 i fun t => executeTask t success }

/-- The id and status of a task: the fields the scheduler reads but never
changes within one `_get_next_executable_task` call. -/
def taskKey (t : Task) : String × TaskStatus := (t.id, t.status)

/-- A task as it appears in the plan JSON parsed by `_plan_tasks`. -/
structure RawTask where
  id : String
  description : String := ""
  dependencies : List String := []
deriving DecidableEq, Repr

/-- The task constructed by `_plan_tasks` from one plan entry: the id and
every dependency id lacking the agent's tag are rewritten to carry it. -/
def planTask (agentId : String) (r : RawTask) : Task :=
  { id := if strStarts (agentTag agentId) r.id then r.id else agentTag agentId ++ r.id
    description := r.description
    dependencies := r.dependencies.map fun d =>
      if strStarts (agentTag agentId) d then d else agentTag agentId ++ d }

/-- `_plan_tasks` over a parsed plan, starting from the empty task list. -/
def planTasks (agentId : String) (raws : List RawTask) : List Task :=
  raws.map (planTask agentId)

lemma scan_map_key (a : String) (et : ℚ) (all : List Task) (now : ℚ) (l : List Task) :
    ((scanTasks a et all now l).2.1).map taskKey = l.map taskKey := by
  induction l with
  | nil => simp [scanTasks]
  | cons t rest ih =>
    simp only [scanTasks]
    split_ifs <;> simp [taskKey, externalTimeoutUpdate, ih]

lemma deadlock_map_key (mw now : ℚ) (l : List Task) :
    ((deadlockScan mw now l).2).map taskKey = l.map taskKey := by
  induction l with
  | nil => simp [deadlockScan]
  | cons t rest ih =>
    simp only [deadlockScan]
    by_cases h1 : t.status = TaskStatus.pending
    · cases hws : t.dependencyWaitStart with
      | none => simp [h1, hws, taskKey, ih]
      | some w =>
        by_cases h2 : now - w ≥ mw
        · simp [h1, hws, h2, taskKey]
        · simp [h1, hws, h2, taskKey, ih]
    · simp [h1, taskKey, ih]

lemma scan_fst_eq (a : String) (et : ℚ) (all : List Task) (now : ℚ) (l : List Task) :
    (scanTasks a et all now l).1 = firstIdxSat (mainScanReturns a et all now) l := by
  induction l with
  | nil => simp [scanTasks, firstIdxSat]
  | cons t rest ih =>
    by_cases h1 : t.status = TaskStatus.pending
    · by_cases h2 : localDepsMet a all t = true
      · by_cases h3 : (externalDeps a t).isEmpty = true
        · simp [scanTasks, firstIdxSat, mainScanReturns, h1, h2, h3]
        · by_cases h4 : now - t.dependencyWaitStart.getD now ≥ et
          · simp [scanTasks, firstIdxSat, mainScanReturns, h1, h2, h3, h4]
          · simp [scanTasks, firstIdxSat, mainScanReturns, h1, h2, h3, h4, ih]
      · simp [scanTasks, firstIdxSat, mainScanReturns, h1, h2, ih]
    · simp [scanTasks, firstIdxSat, mainScanReturns, h1, ih]

lemma deadlock_fst_eq (mw now : ℚ) (l : List Task) :
    (deadlockScan mw now l).1 = firstIdxSat (deadlockReturns mw now) l := by
  induction l with
  | nil => simp [deadlockScan, firstIdxSat]
  | cons t rest ih =>
    by_cases h1 : t.status = TaskStatus.pending
    · cases hws : t.dependencyWaitStart with
      | none => simp [deadlockScan, firstIdxSat, deadlockReturns, h1, hws, ih]
      | some w =>
        by_cases h2 : now - w ≥ mw
        · simp [deadlockScan, firstIdxSat, deadlockReturns, h1, hws, h2]
        · simp [deadlockScan, firstIdxSat, deadlockReturns, h1, hws, h2, ih]
    · simp [deadlockScan, firstIdxSat, deadlockReturns, h1, ih]

lemma firstIdxSat_some_elem {p : Task → Bool} :
    ∀ {l : List Task} {i : Nat}, firstIdxSat p l = some i →
      ∃ t, l[i]? = some t ∧ p t = true := by
  intro l
  induction l with
  | nil => intro i h; simp [firstIdxSat] at h
  | cons t rest ih =>
    intro i h
    simp only [firstIdxSat] at h
    by_cases hp : p t
    · rw [if_pos hp] at h
      cases h
      exact ⟨t, by simp, hp⟩
    · rw [if_neg hp] at h
      rcases Option.map_eq_some'.mp h with ⟨j, hj, rfl⟩
      rcases ih hj with ⟨u, hu, hpu⟩
      exact ⟨u, by simpa using hu, hpu⟩

lemma firstIdxSat_intro {p : Task → Bool} :
    ∀ {l : List Task} {i : Nat} {t : Task}, l[i]? = some t → p t = true →
      (∀ k u, k < i → l[k]? = some u → p u = false) →
      firstIdxSat p l = some i := by
  intro l
  induction l with
  | nil => intro i t h; simp at h
  | cons a rest ih =>
    intro i t hget hp hfirst
    cases i with
    | zero =>
      simp only [List.getElem?_cons_zero, Option.some.injEq] at hget
      subst hget
      simp [firstIdxSat, hp]
    | succ j =>
      have ha : p a = false := hfirst 0 a (Nat.succ_pos j) (by simp)
      simp only [List.getElem?_cons_succ] at hget
      have hrest : firstIdxSat p rest = some j :=
        ih hget hp fun k u hk hu => hfirst (k + 1) u (Nat.succ_lt_succ hk) (by simpa using hu)
      simp [firstIdxSat, ha, hrest]

lemma firstIdxSat_none_intro {p : Task → Bool} :
    ∀ {l : List Task}, (∀ t ∈ l, p t = false) → firstIdxSat p l = none := by
  intro l
  induction l with
  | nil => intro _; rfl
  | cons a rest ih =>
    intro h
    have ha : p a = false := h a (by simp)
    simp [firstIdxSat, ha, ih fun t ht => h t (by simp [ht])]

lemma scan_hit_elem (a : String) (et : ℚ) (all : List Task) (now : ℚ) :
    ∀ (l : List Task) (i : Nat), (scanTasks a et all now l).1 = some i →
      ∃ t, l[i]? = some t ∧
        (scanTasks a et all now l).2.1[i]? =
          some (if (externalDeps a t).isEmpty then t else externalTimeoutUpdate a now t) := by
  intro l
  induction l with
  | nil => intro i h; simp [scanTasks] at h
  | cons t rest ih =>
    intro i h
    by_cases h1 : t.status = TaskStatus.pending
    · by_cases h2 : localDepsMet a all t = true
      · by_cases h3 : (externalDeps a t).isEmpty = true
        · have hstep : scanTasks a et all now (t :: rest) = (some 0, t :: rest, false) := by
            simp only [scanTasks]
            rw [if_pos h1, if_pos h2, if_pos h3]
          rw [hstep] at h
          cases h
          refine ⟨t, by simp, ?_⟩
          rw [hstep]
          simp [h3]
        · by_cases h4 : now - t.dependencyWaitStart.getD now ≥ et
          · have hstep : scanTasks a et all now (t :: rest) =
                (some 0, externalTimeoutUpdate a now t :: rest, true) := by
              simp only [scanTasks]
              rw [if_pos h1, if_pos h2, if_neg h3, if_pos h4]
            rw [hstep] at h
            cases h
            refine ⟨t, by simp, ?_⟩
            rw [hstep]
            simp [h3]
          · have hstep : scanTasks a et all now (t :: rest) =
                (((scanTasks a et all now rest).1).map (· + 1),
                 { t with dependencyWaitStart := some (t.dependencyWaitStart.getD now) } ::
                   (scanTasks a et all now rest).2.1,
                 true) := by
              simp only [scanTasks]
              rw [if_pos h1, if_pos h2, if_neg h3, if_neg h4]
            rw [hstep] at h
            rcases Option.map_eq_some'.mp h with ⟨j, hj, rfl⟩
            rcases ih j hj with ⟨u, hu, hu2⟩
            refine ⟨u, by simpa using hu, ?_⟩
            rw [hstep]
            simpa using hu2
      · have hstep : scanTasks a et all now (t :: rest) =
            (((scanTasks a et all now rest).1).map (· + 1),
             t :: (scanTasks a et all now rest).2.1,
             (scanTasks a et all now rest).2.2) := by
          simp only [scanTasks]
          rw [if_pos h1, if_neg h2]
        rw [hstep] at h
        rcases Option.map_eq_some'.mp h with ⟨j, hj, rfl⟩
        rcases ih j hj with ⟨u, hu, hu2⟩
        refine ⟨u, by simpa using hu, ?_⟩
        rw [hstep]
        simpa using hu2
    · have hstep : scanTasks a et all now (t :: rest) =
          (((scanTasks a et all now rest).1).map (· + 1),
           t :: (scanTasks a et all now rest).2.1,
           (scanTasks a et all now rest).2.2) := by
        simp only [scanTasks]
        rw [if_neg h1]
      rw [hstep] at h
      rcases Option.map_eq_some'.mp h with ⟨j, hj, rfl⟩
      rcases ih j hj with ⟨u, hu, hu2⟩
      refine ⟨u, by simpa using hu, ?_⟩
      rw [hstep]
      simpa using hu2

lemma deadlock_hit_elem (mw now : ℚ) :
    ∀ (l : List Task) (i : Nat), (deadlockScan mw now l).1 = some i →
      ∃ t, l[i]? = some t ∧
        (deadlockScan mw now l).2[i]? = some { t with dependencies := [] } := by
  intro l
  induction l with
  | nil => intro i h; simp [deadlockScan] at h
  | cons t rest ih =>
    intro i h
    by_cases h1 : t.status = TaskStatus.pending
    · cases hws : t.dependencyWaitStart with
      | none =>
        have hstep : deadlockScan mw now (t :: rest) =
            (((deadlockScan mw now rest).1).map (· + 1),
             { t with dependencyWaitStart := some now } :: (deadlockScan mw now rest).2) := by
          simp only [deadlockScan]
          rw [if_pos h1, hws]
        rw [hstep] at h
        rcases Option.map_eq_some'.mp h with ⟨j, hj, rfl⟩
        rcases ih j hj with ⟨u, hu, hu2⟩
        refine ⟨u, by simpa using hu, ?_⟩
        rw [hstep]
        simpa using hu2
      | some w =>
        by_cases h2 : now - w ≥ mw
        · have hstep : deadlockScan mw now (t :: rest) =
              (some 0, { t with dependencies := [] } :: rest) := by
            simp only [deadlockScan]
            rw [if_pos h1, hws]
            simp [h2]
          rw [hstep] at h
          cases h
          exact ⟨t, by simp, by rw [hstep]; simp⟩
        · have hstep : deadlockScan mw now (t :: rest) =
              (((deadlockScan mw now rest).1).map (· + 1),
               t :: (deadlockScan mw now rest).2) := by
            simp only [deadlockScan]
            rw [if_pos h1, hws]
            simp [h2]
          rw [hstep] at h
          rcases Option.map_eq_some'.mp h with ⟨j, hj, rfl⟩
          rcases ih j hj with ⟨u, hu, hu2⟩
          refine ⟨u, by simpa using hu, ?_⟩
          rw [hstep]
          simpa using hu2
    · have hstep : deadlockScan mw now (t :: rest) =
          (((deadlockScan mw now rest).1).map (· + 1),
           t :: (deadlockScan mw now rest).2) := by
        simp only [deadlockScan]
        rw [if_neg h1]
      rw [hstep] at h
      rcases Option.map_eq_some'.mp h with ⟨j, hj, rfl⟩
      rcases ih j hj with ⟨u, hu, hu2⟩
      refine ⟨u, by simpa using hu, ?_⟩
      rw [hstep]
      simpa using hu2

lemma scan_none_snd (a : String) (et : ℚ) (all : List Task) (now : ℚ) :
    ∀ l : List Task, (scanTasks a et all now l).1 = none →
      (scanTasks a et all now l).2.1 = l.map (scanSkipUpdate a all now) := by
  intro l
  induction l with
  | nil => intro _; simp [scanTasks]
  | cons t rest ih =>
    intro h
    by_cases h1 : t.status = TaskStatus.pending
    · by_cases h2 : localDepsMet a all t = true
      · by_cases h3 : (externalDeps a t).isEmpty = true
        · have hstep : scanTasks a et all now (t :: rest) = (some 0, t :: rest, false) := by
            simp only [scanTasks]
            rw [if_pos h1, if_pos h2, if_pos h3]
          rw [hstep] at h
          cases h
        · by_cases h4 : now - t.dependencyWaitStart.getD now ≥ et
          · have hstep : scanTasks a et all now (t :: rest) =
                (some 0, externalTimeoutUpdate a now t :: rest, true) := by
              simp only [scanTasks]
              rw [if_pos h1, if_pos h2, if_neg h3, if_pos h4]
            rw [hstep] at h
            cases h
          · have hstep : scanTasks a et all now (t :: rest) =
                (((scanTasks a et all now rest).1).map (· + 1),
                 { t with dependencyWaitStart := some (t.dependencyWaitStart.getD now) } ::
                   (scanTasks a et all now rest).2.1,
                 true) := by
              simp only [scanTasks]
              rw [if_pos h1, if_pos h2, if_neg h3, if_neg h4]
            rw [hstep] at h ⊢
            have hrest : (scanTasks a et all now rest).1 = none := by
              simpa using h
            have hskip : scanSkipUpdate a all now t =
                { t with dependencyWaitStart := some (t.dependencyWaitStart.getD now) } := by
              unfold scanSkipUpdate
              rw [if_pos ⟨h1, h2, by simpa using h3⟩]
            simp [hskip, ih hrest]
      · have hstep : scanTasks a et all now (t :: rest) =
            (((scanTasks a et all now rest).1).map (· + 1),
             t :: (scanTasks a et all now rest).2.1,
             (scanTasks a et all now rest).2.2) := by
          simp only [scanTasks]
          rw [if_pos h1, if_neg h2]
        rw [hstep] at h ⊢
        have hrest : (scanTasks a et all now rest).1 = none := by
          simpa using h
        have hskip : scanSkipUpdate a all now t = t := by
          unfold scanSkipUpdate
          rw [if_neg]
          intro hc
          exact h2 hc.2.1
        simp [hskip, ih hrest]
    · have hstep : scanTasks a et all now (t :: rest) =
          (((scanTasks a et all now rest).1).map (· + 1),
           t :: (scanTasks a et all now rest).2.1,
           (scanTasks a et all now rest).2.2) := by
        simp only [scanTasks]
        rw [if_neg h1]
      rw [hstep] at h ⊢
      have hrest : (scanTasks a et all now rest).1 = none := by
        simpa using h
      have hskip : scanSkipUpdate a all now t = t := by
        unfold scanSkipUpdate
        rw [if_neg]
        intro hc
        exact h1 hc.1
      simp [hskip, ih hrest]

lemma findTask_key_congr :
    ∀ (l l' : List Task), l.map taskKey = l'.map taskKey →
      ∀ d : String, ((findTask l d).map taskKey) = ((findTask l' d).map taskKey) := by
  intro l
  induction l with
  | nil =>
    intro l' h d
    have : l' = [] := by
      cases l' with
      | nil => rfl
      | cons u us => simp at h
    subst this
    rfl
  | cons t rest ih =>
    intro l' h d
    cases l' with
    | nil => simp at h
    | cons u rest' =>
      simp only [List.map_cons, List.cons.injEq] at h
      obtain ⟨hkey, hrest⟩ := h
      have hid : t.id = u.id := congrArg Prod.fst hkey
      simp only [findTask, List.find?]
      cases hb : (t.id == d) with
      | true =>
        have hb' : (u.id == d) = true := by rw [← hid]; exact hb
        rw [hb']
        simpa using hkey
      | false =>
        have hb' : (u.id == d) = false := by rw [← hid]; exact hb
        rw [hb']
        exact ih rest' hrest d

lemma updateAt_getElem :
    ∀ (l : List Task) (i : Nat) (f : Task → Task) (k : Nat),
      (updateAt l i f)[k]? = if k = i then (l[k]?).map f else l[k]? := by
  intro l
  induction l with
  | nil => intro i f k; simp [updateAt]
  | cons t rest ih =>
    intro i f k
    cases i with
    | zero =>
      cases k with
      | zero => simp [updateAt]
      | succ j => simp [updateAt]
    | succ m =>
      cases k with
      | zero => simp [updateAt]
      | succ j =>
        simp only [updateAt, List.getElem?_cons_succ, ih m f j]
        by_cases hj : j = m
        · simp [hj]
        · simp [hj, fun hc : j + 1 = m + 1 => hj (Nat.succ_injective hc)]

lemma getNext_map_key (ag : AgentState) (now : ℚ) :
    ((getNextExecutableTask ag now).2).map taskKey = ag.tasks.map taskKey := by
  unfold getNextExecutableTask
  by_cases hemp : ag.tasks.isEmpty
  · rw [if_pos hemp]
  · rw [if_neg hemp]
    have h1 := scan_map_key ag.agentId ag.externalDependencyTimeout ag.tasks now ag.tasks
    cases hscan : (scanTasks ag.agentId ag.externalDependencyTimeout ag.tasks now ag.tasks).1 with
    | some i =>
      simp only [hscan]
      exact h1
    | none =>
      simp only [hscan]
      exact (deadlock_map_key ag.maxDependencyWaitTime now _).trans h1

lemma map_key_getElem (l l' : List Task) (h : l.map taskKey = l'.map taskKey) (k : Nat) :
    (l[k]?).map taskKey = (l'[k]?).map taskKey := by
  rw [← List.getElem?_map, ← List.getElem?_map, h]

lemma mainScanReturns_eq_true {a : String} {et : ℚ} {all : List Task} {now : ℚ} {t : Task}
    (h : mainScanReturns a et all now t = true) :
    t.status = TaskStatus.pending ∧ localDepsMet a all t = true ∧
      ((externalDeps a t).isEmpty = true ∨ now - t.dependencyWaitStart.getD now ≥ et) := by
  unfold mainScanReturns at h
  rw [Bool.and_eq_true, Bool.and_eq_true, Bool.or_eq_true] at h
  refine ⟨by simpa using h.1.1, h.1.2, ?_⟩
  rcases h.2 with h2 | h2
  · exact Or.inl h2
  · exact Or.inr (of_decide_eq_true h2)

lemma deadlockReturns_eq_true {mw now : ℚ} {t : Task}
    (h : deadlockReturns mw now t = true) :
    t.status = TaskStatus.pending ∧ ∃ w, t.dependencyWaitStart = some w ∧ now - w ≥ mw := by
  unfold deadlockReturns at h
  rw [Bool.and_eq_true] at h
  refine ⟨by simpa using h.1, ?_⟩
  cases hws : t.dependencyWaitStart with
  | none => rw [hws] at h; simp at h
  | some w =>
    have h2 := h.2
    rw [hws] at h2
    exact ⟨w, rfl, of_decide_eq_true h2⟩

lemma getNext_hit (ag : AgentState) (now : ℚ) (i : Nat)
    (h : (getNextExecutableTask ag now).1 = some i) :
    ∃ u, (getNextExecutableTask ag now).2[i]? = some u ∧ u.status = TaskStatus.pending := by
  unfold getNextExecutableTask at h ⊢
  by_cases hemp : ag.tasks.isEmpty
  · rw [if_pos hemp] at h
    simp at h
  · rw [if_neg hemp] at h ⊢
    cases hscan : (scanTasks ag.agentId ag.externalDependencyTimeout ag.tasks now ag.tasks).1 with
    | some j =>
      simp only [hscan] at h ⊢
      have hij : j = i := by simpa using h
      subst hij
      obtain ⟨t, hget, helem⟩ := scan_hit_elem _ _ _ _ _ j hscan
      obtain ⟨t2, hget2, hp⟩ := firstIdxSat_some_elem (l := ag.tasks)
        (by rw [← scan_fst_eq]; exact hscan)
      rw [hget] at hget2
      obtain rfl : t = t2 := Option.some.inj hget2
      obtain ⟨hpend, -, -⟩ := mainScanReturns_eq_true hp
      refine ⟨_, helem, ?_⟩
      split_ifs <;> simpa [externalTimeoutUpdate] using hpend
    | none =>
      simp only [hscan] at h ⊢
      obtain ⟨t, hget, helem⟩ := deadlock_hit_elem _ _ _ i h
      obtain ⟨t2, hget2, hp⟩ := firstIdxSat_some_elem (by rw [← deadlock_fst_eq]; exact h)
      rw [hget] at hget2
      obtain rfl : t = t2 := Option.some.inj hget2
      obtain ⟨hpend, -⟩ := deadlockReturns_eq_true hp
      exact ⟨_, helem, hpend⟩

/-- C1.  Task statuses only ever move forward along
PENDING → IN_PROGRESS → {COMPLETED, FAILED}.  First part: across one
iteration of the agent's loop (select next executable task, execute it),
the status rank of every task never decreases and a task already COMPLETED
or FAILED keeps its status.  Second part: the sequence of statuses
`_execute_task` writes to the (PENDING) task it runs is strictly
increasing along that order. -/
theorem task_status_forward_only :
    (∀ (ag : AgentState) (now : ℚ) (success : Bool) (k : Nat) (t t' : Task),
        ag.tasks[k]? = some t →
        (agentStep ag now success).tasks[k]? = some t' →
        statusRank t.status ≤ statusRank t'.status ∧
          ((t.status = TaskStatus.completed ∨ t.status = TaskStatus.failed) →
            t'.status = t.status)) ∧
    (∀ success : Bool,
      List.Chain (fun s1 s2 => statusRank s1 < statusRank s2) TaskStatus.pending
        (executeStatusWrites success)) := by
  constructor
  · intro ag now success k t t' ht ht'
    unfold agentStep at ht'
    have hmap := getNext_map_key ag now
    cases hr : (getNextExecutableTask ag now).1 with
    | none =>
      simp only [hr] at ht'
      have hkk := map_key_getElem _ _ hmap k
      rw [ht, ht'] at hkk
      have hkey : taskKey t' = taskKey t := by simpa using hkk
      have hstat : t'.status = t.status := congrArg Prod.snd hkey
      exact ⟨by rw [hstat], fun _ => hstat⟩
    | some i =>
      simp only [hr] at ht'
      rw [updateAt_getElem] at ht'
      by_cases hk : k = i
      · subst hk
        rw [if_pos rfl] at ht'
        obtain ⟨u, hu, hupend⟩ := getNext_hit ag now k hr
        rw [hu] at ht'
        have ht'eq : t' = executeTask u success := (Option.some.inj ht').symm
        have hkk := map_key_getElem _ _ hmap k
        rw [ht, hu] at hkk
        have hkey : taskKey u = taskKey t := by simpa using hkk
        have hstat' : u.status = t.status := congrArg Prod.snd hkey
        have hstat : t.status = TaskStatus.pending := by
          rw [← hstat']
          exact hupend
        constructor
        · rw [ht'eq, hstat]
          cases success <;> simp [executeTask, statusRank]
        · intro hterm
          rw [hstat] at hterm
          rcases hterm with hterm | hterm <;> cases hterm
      · rw [if_neg hk] at ht'
        have hkk := map_key_getElem _ _ hmap k
        rw [ht, ht'] at hkk
        have hkey : taskKey t' = taskKey t := by simpa using hkk
        have hstat : t'.status = t.status := congrArg Prod.snd hkey
        exact ⟨by rw [hstat], fun _ => hstat⟩
  · intro success
    cases success <;> simp [executeStatusWrites, statusRank]

def agW : AgentState := { agentId := "b", tasks := [{ id := "b-1" }] }

def tW : Task := { id := "b-1" }

def tW' : Task := { id := "b-1", status := TaskStatus.completed }

/-- Witness for C1 at a concrete one-task agent: the pending task is
selected and executed, moving PENDING (rank 0) to COMPLETED (rank 2). -/
theorem task_status_forward_only_witness :
    statusRank tW.status ≤ statusRank tW'.status ∧
      ((tW.status = TaskStatus.completed ∨ tW.status = TaskStatus.failed) →
        tW'.status = tW.status) :=
  task_status_forward_only.1 agW 0 true 0 tW tW' (by decide) (by decide)

lemma localDepsMet_completed (a : String) (all : List Task) (t : Task)
    (h : localDepsMet a all t = true) :
    ∀ d ∈ t.dependencies, isLocalDep a d = true →
      ∃ u, findTask all d = some u ∧ u.status = TaskStatus.completed := by
  intro d hd hloc
  have hall := (List.all_eq_true.mp h) d hd
  rw [hloc] at hall
  simp only [Bool.not_true, Bool.false_or] at hall
  cases hft : findTask all d with
  | none => rw [hft] at hall; simp at hall
  | some u =>
    rw [hft] at hall
    exact ⟨u, rfl, by simpa using hall⟩

lemma findTask_completed_transfer (l l' : List Task)
    (h : l.map taskKey = l'.map taskKey) (d : String) (u : Task)
    (hf : findTask l d = some u) (hc : u.status = TaskStatus.completed) :
    ∃ v, findTask l' d = some v ∧ v.status = TaskStatus.completed := by
  have hcong := findTask_key_congr l l' h d
  rw [hf] at hcong
  cases hf' : findTask l' d with
  | none => rw [hf'] at hcong; simp at hcong
  | some v =>
    rw [hf'] at hcong
    have hkey : taskKey u = taskKey v := by simpa using hcong
    have hst : u.status = v.status := congrArg Prod.snd hkey
    exact ⟨v, rfl, by rw [← hst]; exact hc⟩

/-- C2.  Whenever `_get_next_executable_task` returns a task, every
dependency id on the returned task carrying this agent's id-tag refers to
a task whose status is COMPLETED in the task list as left by the call. -/
theorem getNext_no_unmet_local_deps (ag : AgentState) (now : ℚ) (i : Nat)
    (h : (getNextExecutableTask ag now).1 = some i) :
    ∃ t', (getNextExecutableTask ag now).2[i]? = some t' ∧
      ∀ d ∈ t'.dependencies, isLocalDep ag.agentId d = true →
        ∃ u, findTask (getNextExecutableTask ag now).2 d = some u ∧
          u.status = TaskStatus.completed := by
  by_cases hemp : ag.tasks.isEmpty
  · exfalso
    have hnone : (getNextExecutableTask ag now).1 = none := by
      unfold getNextExecutableTask
      rw [if_pos hemp]
    rw [hnone] at h
    cases h
  · cases hscan : (scanTasks ag.agentId ag.externalDependencyTimeout ag.tasks now ag.tasks).1 with
    | some j =>
      have hgn : getNextExecutableTask ag now =
          (some j, (scanTasks ag.agentId ag.externalDependencyTimeout ag.tasks now ag.tasks).2.1) := by
        unfold getNextExecutableTask
        rw [if_neg hemp]
        simp only [hscan]
      rw [hgn] at h ⊢
      obtain rfl : j = i := by simpa using h
      obtain ⟨t, hget, helem⟩ := scan_hit_elem _ _ _ _ _ j hscan
      obtain ⟨t2, hget2, hp⟩ := firstIdxSat_some_elem (l := ag.tasks)
        (by rw [← scan_fst_eq]; exact hscan)
      rw [hget] at hget2
      obtain rfl : t = t2 := Option.some.inj hget2
      obtain ⟨-, hmet, -⟩ := mainScanReturns_eq_true hp
      refine ⟨_, helem, ?_⟩
      intro d hd hloc
      have hdin : d ∈ t.dependencies := by
        by_cases h3 : (externalDeps ag.agentId t).isEmpty = true
        · rw [if_pos h3] at hd
          exact hd
        · rw [if_neg h3] at hd
          simp only [externalTimeoutUpdate, List.mem_filter] at hd
          exact hd.1
      obtain ⟨u, hfu, hcu⟩ := localDepsMet_completed _ _ _ hmet d hdin hloc
      exact findTask_completed_transfer ag.tasks _
        (scan_map_key ag.agentId ag.externalDependencyTimeout ag.tasks now ag.tasks).symm
        d u hfu hcu
    | none =>
      have hgn : getNextExecutableTask ag now =
          deadlockScan ag.maxDependencyWaitTime now
            (scanTasks ag.agentId ag.externalDependencyTimeout ag.tasks now ag.tasks).2.1 := by
        unfold getNextExecutableTask
        rw [if_neg hemp]
        simp only [hscan]
      rw [hgn] at h ⊢
      obtain ⟨t, hget, helem⟩ := deadlock_hit_elem _ _ _ i h
      refine ⟨_, helem, ?_⟩
      intro d hd hloc
      simp at hd

def agC2 : AgentState :=
  { agentId := "b",
    tasks := [{ id := "b-1", status := TaskStatus.completed },
              { id := "b-2", dependencies := ["b-1"] }] }

/-- Witness for C2: a two-task agent whose second task depends on the
completed first task; the scheduler returns the second task. -/
theorem getNext_no_unmet_local_deps_witness :
    (getNextExecutableTask agC2 0).1 = some 1 ∧
      ∃ t', (getNextExecutableTask agC2 0).2[1]? = some t' ∧
        ∀ d ∈ t'.dependencies, isLocalDep agC2.agentId d = true →
          ∃ u, findTask (getNextExecutableTask agC2 0).2 d = some u ∧
            u.status = TaskStatus.completed :=
  ⟨by decide, getNext_no_unmet_local_deps agC2 0 1 (by decide)⟩

lemma scanSkipUpdate_waitStart (a : String) (all : List Task) (now : ℚ) (t : Task) (w : ℚ)
    (hw : t.dependencyWaitStart = some w) :
    (scanSkipUpdate a all now t).dependencyWaitStart = some w := by
  unfold scanSkipUpdate
  split_ifs <;> simp [hw]

/-- C3.  A PENDING task whose local dependencies are met but which still
has external dependencies is returned with the external dependencies
dropped (local ones retained) at, but not before, the external-dependency
timeout measured from its recorded wait start: a call strictly earlier
never returns the task (neither through the wait branch nor through the
deadlock fallback, whose threshold is no smaller), and a call at or past
the timeout — with no earlier task claiming the scan — returns exactly it. -/
theorem external_timeout_exact (ag : AgentState) (now w : ℚ) (i : Nat) (t : Task)
    (hget : ag.tasks[i]? = some t)
    (hp : t.status = TaskStatus.pending)
    (hl : localDepsMet ag.agentId ag.tasks t = true)
    (he : (externalDeps ag.agentId t).isEmpty = false)
    (hw : t.dependencyWaitStart = some w)
    (hto : ag.externalDependencyTimeout ≤ ag.maxDependencyWaitTime)
    (hfirst : ∀ k u, k < i → ag.tasks[k]? = some u →
        mainScanReturns ag.agentId ag.externalDependencyTimeout ag.tasks now u = false) :
    (now - w < ag.externalDependencyTimeout →
        (getNextExecutableTask ag now).1 ≠ some i) ∧
    (now - w ≥ ag.externalDependencyTimeout →
        (getNextExecutableTask ag now).1 = some i ∧
        (getNextExecutableTask ag now).2[i]? =
          some { t with
                 dependencies := t.dependencies.filter fun d => isLocalDep ag.agentId d
                 dependencyWaitStart := some w }) := by
  have hne : ¬(ag.tasks.isEmpty = true) := by
    cases htl : ag.tasks with
    | nil => rw [htl] at hget; simp at hget
    | cons x xs => simp
  have hgetD : t.dependencyWaitStart.getD now = w := by rw [hw]; rfl
  constructor
  · intro hlt hcon
    have hnle : ¬(now - t.dependencyWaitStart.getD now ≥ ag.externalDependencyTimeout) := by
      rw [hgetD]
      exact not_le.mpr hlt
    have hpredf : mainScanReturns ag.agentId ag.externalDependencyTimeout ag.tasks now t
        = false := by
      unfold mainScanReturns
      rw [he]
      simp [hnle]
    cases hscan :
        (scanTasks ag.agentId ag.externalDependencyTimeout ag.tasks now ag.tasks).1 with
    | some j =>
      have hgn : (getNextExecutableTask ag now).1 = some j := by
        unfold getNextExecutableTask
        rw [if_neg hne]
        simp only [hscan]
      rw [hgn] at hcon
      obtain rfl : j = i := by simpa using hcon
      obtain ⟨t2, hget2, hp2⟩ := firstIdxSat_some_elem (l := ag.tasks)
        (by rw [← scan_fst_eq]; exact hscan)
      rw [hget] at hget2
      obtain rfl : t = t2 := Option.some.inj hget2
      rw [hpredf] at hp2
      cases hp2
    | none =>
      have hgn : getNextExecutableTask ag now =
          deadlockScan ag.maxDependencyWaitTime now
            (scanTasks ag.agentId ag.externalDependencyTimeout ag.tasks now ag.tasks).2.1 := by
        unfold getNextExecutableTask
        rw [if_neg hne]
        simp only [hscan]
      rw [hgn] at hcon
      have hsnd := scan_none_snd ag.agentId ag.externalDependencyTimeout ag.tasks now
        ag.tasks hscan
      obtain ⟨u, hgetu, hpu⟩ := firstIdxSat_some_elem
        (by rw [← deadlock_fst_eq]; exact hcon)
      rw [hsnd] at hgetu
      rw [List.getElem?_map, hget] at hgetu
      obtain rfl : scanSkipUpdate ag.agentId ag.tasks now t = u := Option.some.inj hgetu
      obtain ⟨-, w2, hw2, hge2⟩ := deadlockReturns_eq_true hpu
      rw [scanSkipUpdate_waitStart ag.agentId ag.tasks now t w hw] at hw2
      obtain rfl : w = w2 := Option.some.inj hw2
      have : now - w < ag.maxDependencyWaitTime := lt_of_lt_of_le hlt hto
      exact absurd hge2 (not_le.mpr this)
  · intro hge
    have hpredt : mainScanReturns ag.agentId ag.externalDependencyTimeout ag.tasks now t
        = true := by
      unfold mainScanReturns
      rw [hgetD]
      simp [hp, hl, hge]
    have hfs : firstIdxSat
        (mainScanReturns ag.agentId ag.externalDependencyTimeout ag.tasks now) ag.tasks
        = some i := firstIdxSat_intro hget hpredt hfirst
    have hscan : (scanTasks ag.agentId ag.externalDependencyTimeout ag.tasks now ag.tasks).1
        = some i := by
      rw [scan_fst_eq]
      exact hfs
    have hgn : getNextExecutableTask ag now =
        (some i,
         (scanTasks ag.agentId ag.externalDependencyTimeout ag.tasks now ag.tasks).2.1) := by
      unfold getNextExecutableTask
      rw [if_neg hne]
      simp only [hscan]
    rw [hgn]
    refine ⟨rfl, ?_⟩
    obtain ⟨t0, hget0, helem⟩ := scan_hit_elem _ _ _ _ _ i hscan
    rw [hget] at hget0
    obtain rfl : t = t0 := Option.some.inj hget0
    rw [helem, if_neg (by rw [he]; exact Bool.false_ne_true)]
    simp [externalTimeoutUpdate, hgetD]

def tC3 : Task := { id := "b-1", dependencies := ["o-1"], dependencyWaitStart := some 0 }

def agC3 : AgentState := { agentId := "b", tasks := [tC3] }

/-- Witness for C3: a single waiting task (timer started at 0, external
dependency on another agent).  At time 10 it is not returned; at time 30
(the timeout) it is returned with the external dependency dropped. -/
theorem external_timeout_exact_witness :
    ((getNextExecutableTask agC3 10).1 ≠ some 0) ∧
    (getNextExecutableTask agC3 30).1 = some 0 ∧
    (getNextExecutableTask agC3 30).2[0]? =
      some { id := "b-1", dependencies := ["o-1"].filter fun d => isLocalDep "b" d
             dependencyWaitStart := some 0 } := by
  have hbase := fun (now : ℚ) (hfirst : ∀ k u, k < 0 → agC3.tasks[k]? = some u →
      mainScanReturns agC3.agentId agC3.externalDependencyTimeout agC3.tasks now u = false) =>
    external_timeout_exact agC3 now 0 0 tC3 (by decide) (by decide) (by decide) (by decide)
      (by decide) (by show (30 : ℚ) ≤ 60; norm_num) hfirst
  have hvac : ∀ (now : ℚ) k u, k < 0 → agC3.tasks[k]? = some u →
      mainScanReturns agC3.agentId agC3.externalDependencyTimeout agC3.tasks now u = false :=
    fun _ k _ hk _ => absurd hk (Nat.not_lt_zero k)
  refine ⟨(hbase 10 (hvac 10)).1 (by show (10 : ℚ) - 0 < 30; norm_num), ?_, ?_⟩
  · exact ((hbase 30 (hvac 30)).2 (by show (30 : ℚ) - 0 ≥ 30; norm_num)).1
  · exact ((hbase 30 (hvac 30)).2 (by show (30 : ℚ) - 0 ≥ 30; norm_num)).2

lemma scanSkipUpdate_id (a : String) (all : List Task) (now : ℚ) (t : Task) :
    (scanSkipUpdate a all now t).id = t.id := by
  unfold scanSkipUpdate
  split_ifs <;> rfl

lemma scanSkipUpdate_status (a : String) (all : List Task) (now : ℚ) (t : Task) :
    (scanSkipUpdate a all now t).status = t.status := by
  unfold scanSkipUpdate
  split_ifs <;> rfl

lemma deadlockReturns_scanSkipUpdate (a : String) (all : List Task) (mw now : ℚ) (u : Task)
    (hmw : 0 < mw) :
    deadlockReturns mw now (scanSkipUpdate a all now u) = deadlockReturns mw now u := by
  unfold scanSkipUpdate
  split_ifs with hc
  · unfold deadlockReturns
    cases hws : u.dependencyWaitStart with
    | some v => simp [hws]
    | none =>
      have hng : ¬(now - now ≥ mw) := by
        rw [sub_self]
        exact not_le.mpr hmw
      simp [hws, hng]
      exact fun _ => hmw
  · rfl

/-- C4.  When the scan finds nothing executable and a PENDING task's
recorded wait has reached the global deadlock threshold (and no earlier
pending task has), `_get_next_executable_task` returns that task with all
of its dependencies — local and external alike, satisfiable or not —
cleared. -/
theorem deadlock_clears_all_deps (ag : AgentState) (now w : ℚ) (i : Nat) (t : Task)
    (hget : ag.tasks[i]? = some t)
    (hp : t.status = TaskStatus.pending)
    (hw : t.dependencyWaitStart = some w)
    (hge : now - w ≥ ag.maxDependencyWaitTime)
    (hmw : 0 < ag.maxDependencyWaitTime)
    (hnone : ∀ u ∈ ag.tasks,
        mainScanReturns ag.agentId ag.externalDependencyTimeout ag.tasks now u = false)
    (hfirst : ∀ k u, k < i → ag.tasks[k]? = some u →
        deadlockReturns ag.maxDependencyWaitTime now u = false) :
    (getNextExecutableTask ag now).1 = some i ∧
    ∃ t', (getNextExecutableTask ag now).2[i]? = some t' ∧
      t'.id = t.id ∧ t'.dependencies = [] ∧ t'.status = TaskStatus.pending := by
  have hne : ¬(ag.tasks.isEmpty = true) := by
    cases htl : ag.tasks with
    | nil => rw [htl] at hget; simp at hget
    | cons x xs => simp
  have hscan : (scanTasks ag.agentId ag.externalDependencyTimeout ag.tasks now ag.tasks).1
      = none := by
    rw [scan_fst_eq]
    exact firstIdxSat_none_intro hnone
  have hsnd := scan_none_snd ag.agentId ag.externalDependencyTimeout ag.tasks now ag.tasks hscan
  have hgn : getNextExecutableTask ag now =
      deadlockScan ag.maxDependencyWaitTime now
        (scanTasks ag.agentId ag.externalDependencyTimeout ag.tasks now ag.tasks).2.1 := by
    unfold getNextExecutableTask
    rw [if_neg hne]
    simp only [hscan]
  have htsget : (scanTasks ag.agentId ag.externalDependencyTimeout ag.tasks now ag.tasks).2.1[i]?
      = some (scanSkipUpdate ag.agentId ag.tasks now t) := by
    rw [hsnd, List.getElem?_map, hget]
    rfl
  have hpred : deadlockReturns ag.maxDependencyWaitTime now
      (scanSkipUpdate ag.agentId ag.tasks now t) = true := by
    rw [deadlockReturns_scanSkipUpdate _ _ _ _ _ hmw]
    unfold deadlockReturns
    rw [hw]
    simp [hp, hge]
  have hfirst' : ∀ k u, k < i →
      (scanTasks ag.agentId ag.externalDependencyTimeout ag.tasks now ag.tasks).2.1[k]? = some u →
      deadlockReturns ag.maxDependencyWaitTime now u = false := by
    intro k u hk hgetk
    rw [hsnd, List.getElem?_map] at hgetk
    cases hgo : ag.tasks[k]? with
    | none => rw [hgo] at hgetk; simp at hgetk
    | some v =>
      rw [hgo] at hgetk
      obtain rfl : scanSkipUpdate ag.agentId ag.tasks now v = u := Option.some.inj hgetk
      rw [deadlockReturns_scanSkipUpdate _ _ _ _ _ hmw]
      exact hfirst k v hk hgo
  have hdl : (deadlockScan ag.maxDependencyWaitTime now
      (scanTasks ag.agentId ag.externalDependencyTimeout ag.tasks now ag.tasks).2.1).1
      = some i := by
    rw [deadlock_fst_eq]
    exact firstIdxSat_intro htsget hpred hfirst'
  obtain ⟨t0, hget0, helem⟩ := deadlock_hit_elem _ _ _ i hdl
  rw [htsget] at hget0
  obtain rfl : scanSkipUpdate ag.agentId ag.tasks now t = t0 := Option.some.inj hget0
  refine ⟨by rw [hgn]; exact hdl, _, by rw [hgn]; exact helem, ?_, rfl, ?_⟩
  · exact scanSkipUpdate_id ag.agentId ag.tasks now t
  · rw [show ({ scanSkipUpdate ag.agentId ag.tasks now t with dependencies := [] } : Task).status
        = (scanSkipUpdate ag.agentId ag.tasks now t).status from rfl]
    rw [scanSkipUpdate_status]
    exact hp

def tC4 : Task := { id := "b-1", dependencies := ["b-9"], dependencyWaitStart := some 0 }

def agC4 : AgentState := { agentId := "b", tasks := [tC4] }

/-- Witness for C4: one pending task with an unsatisfiable local
dependency; after 60 seconds of recorded wait it is forced executable with
all dependencies cleared. -/
theorem deadlock_clears_all_deps_witness :
    (getNextExecutableTask agC4 60).1 = some 0 ∧
    ∃ t', (getNextExecutableTask agC4 60).2[0]? = some t' ∧
      t'.id = tC4.id ∧ t'.dependencies = [] ∧ t'.status = TaskStatus.pending :=
  deadlock_clears_all_deps agC4 60 0 0 tC4 (by decide) (by decide) (by decide)
    (by show (60 : ℚ) - 0 ≥ 60; norm_num) (by show (0 : ℚ) < 60; norm_num)
    (by decide) (fun k u hk _ => absurd hk (Nat.not_lt_zero k))

lemma isPrefixOf_append_self (l m : List Char) : l.isPrefixOf (l ++ m) = true := by
  rw [List.isPrefixOf_iff_prefix]
  exact List.prefix_append l m

lemma strStarts_tag (tag x : String) : strStarts tag (tag ++ x) = true := by
  unfold strStarts
  have hdata : (tag ++ x).data = tag.data ++ x.data := by
    cases tag
    cases x
    rfl
  rw [hdata]
  exact isPrefixOf_append_self _ _

/-- C10.  After planning, every task id and every dependency id carries
the agent's own tag, so every planned dependency is classified as local
(`external_dependencies` is empty for every planned task) and the
external-dependency wait/timeout branch of the scan is never entered on a
task list whose tasks all have empty external-dependency sets. -/
theorem plan_prefixes_and_no_externals :
    (∀ (a : String) (raws : List RawTask) (t : Task), t ∈ planTasks a raws →
        strStarts (agentTag a) t.id = true ∧
        (∀ d ∈ t.dependencies, strStarts (agentTag a) d = true) ∧
        externalDeps a t = []) ∧
    (∀ (a : String) (et : ℚ) (all : List Task) (now : ℚ) (l : List Task),
        (∀ t ∈ l, externalDeps a t = []) →
        (scanTasks a et all now l).2.2 = false) := by
  constructor
  · intro a raws t ht
    obtain ⟨r, hr, rfl⟩ := List.mem_map.mp ht
    have hdeps : ∀ d ∈ (planTask a r).dependencies, strStarts (agentTag a) d = true := by
      intro d hd
      simp only [planTask, List.mem_map] at hd
      obtain ⟨d0, hd0, rfl⟩ := hd
      by_cases h : strStarts (agentTag a) d0 = true
      · simp [h]
      · simp [h, strStarts_tag]
    refine ⟨?_, hdeps, ?_⟩
    · by_cases h : strStarts (agentTag a) r.id = true
      · simp [planTask, h]
      · simp [planTask, h, strStarts_tag]
    · unfold externalDeps
      rw [List.filter_eq_nil_iff]
      intro d hd
      have hds := hdeps d hd
      simp [isLocalDep, hds]
  · intro a et all now l
    induction l with
    | nil => intro _; rfl
    | cons t rest ih =>
      intro hl
      have het : externalDeps a t = [] := hl t (by simp)
      have hrest : ∀ u ∈ rest, externalDeps a u = [] := fun u hu => hl u (by simp [hu])
      by_cases h1 : t.status = TaskStatus.pending
      · by_cases h2 : localDepsMet a all t = true
        · have h3 : (externalDeps a t).isEmpty = true := by rw [het]; rfl
          have hstep : scanTasks a et all now (t :: rest) = (some 0, t :: rest, false) := by
            simp only [scanTasks]
            rw [if_pos h1, if_pos h2, if_pos h3]
          rw [hstep]
        · have hstep : scanTasks a et all now (t :: rest) =
              (((scanTasks a et all now rest).1).map (· + 1),
               t :: (scanTasks a et all now rest).2.1,
               (scanTasks a et all now rest).2.2) := by
            simp only [scanTasks]
            rw [if_pos h1, if_neg h2]
          rw [hstep]
          exact ih hrest
      · have hstep : scanTasks a et all now (t :: rest) =
            (((scanTasks a et all now rest).1).map (· + 1),
             t :: (scanTasks a et all now rest).2.1,
             (scanTasks a et all now rest).2.2) := by
          simp only [scanTasks]
          rw [if_neg h1]
        rw [hstep]
        exact ih hrest

def rawC10 : RawTask := { id := "t1", dependencies := ["operator-1-x"] }

/-- Witness for C10: a planned task whose model-declared id lacks the tag
and whose declared dependency points at another agent's task; both get the
agent's tag, the dependency set has no externals, and the scan's external
branch stays unused. -/
theorem plan_prefixes_and_no_externals_witness :
    (strStarts (agentTag "b") (planTask "b" rawC10).id = true ∧
      (∀ d ∈ (planTask "b" rawC10).dependencies, strStarts (agentTag "b") d = true) ∧
      externalDeps "b" (planTask "b" rawC10) = []) ∧
    (scanTasks "b" 30 (planTasks "b" [rawC10]) 0 (planTasks "b" [rawC10])).2.2 = false :=
  ⟨plan_prefixes_and_no_externals.1 "b" [rawC10] (planTask "b" rawC10) (by simp [planTasks]),
   plan_prefixes_and_no_externals.2 "b" 30 (planTasks "b" [rawC10]) 0 (planTasks "b" [rawC10])
     (by decide)⟩

end AgentRepo
